import Mathlib

/-!
Verification of `gdrive_videoloader.py` against its specification.

The Python source is shallowly embedded: each pure helper becomes a Lean
function over `List Char` / `String`, HTTP exchanges become explicit
parameters (an `Except` value for a fetch result, a `Response` record for
a download response), and the filesystem state of the downloader becomes
an explicit `Option (List Nat)` (absent file, or present file contents).
-/

namespace GdriveVideoloader

/-- Python `\s` for the ASCII range: space, tab, newline, carriage return,
vertical tab, form feed. -/
def isSpaceChar (c : Char) : Bool :=
  c = ' ' || c = '\t' || c = '\n' || c = '\r' || c = '\x0b' || c = '\x0c'

/-- Value of a hexadecimal digit, `none` for a non-digit.  Used by the
model of `urllib.parse.unquote`. -/
def hexVal (c : Char) : Option Nat :=
  if '0' ≤ c ∧ c ≤ '9' then some (c.toNat - '0'.toNat)
  else if 'a' ≤ c ∧ c ≤ 'f' then some (c.toNat - 'a'.toNat + 10)
  else if 'A' ≤ c ∧ c ≤ 'F' then some (c.toNat - 'A'.toNat + 10)
  else none

/-- Model of `urllib.parse.unquote` on the byte level: a `%xy` escape with
two hex digits becomes the character of code `16*x + y`; a `%` not followed
by two hex digits is kept literally, as CPython does.  (CPython additionally
reassembles multi-byte UTF-8 sequences; all escapes appearing in the claims
decode single ASCII bytes, where the two behaviours agree.) -/
def unquoteAux : List Char → List Char
  | [] => []
  | '%' :: a :: b :: rest =>
    match hexVal a, hexVal b with
    | some ha, some hb => Char.ofNat (16 * ha + hb) :: unquoteAux rest
    | _, _ => '%' :: unquoteAux (a :: b :: rest)
  | c :: rest => c :: unquoteAux rest

/-- Python `str.split(sep)` for a one-character separator: splits on every
occurrence, keeping empty parts, and yields `[""]` on the empty string. -/
def splitOnChar (sep : Char) : List Char → List (List Char)
  | [] => [[]]
  | c :: cs =>
    if c = sep then [] :: splitOnChar sep cs
    else
      match splitOnChar sep cs with
      | [] => [[c]]
      | p :: ps => (c :: p) :: ps

/-- Python `str.strip()` restricted to ASCII whitespace: drop whitespace
from both ends. -/
def pyStrip (s : List Char) : List Char :=
  (((s.dropWhile isSpaceChar).reverse).dropWhile isSpaceChar).reverse

/-! ### Identifier resolver: extract_drive_id (src/gdrive_videoloader.py lines 10-16)

The regex is `/file/d/([a-zA-Z0-9_-]+)` under `re.search`: leftmost
occurrence of the literal `/file/d/` followed by a non-empty maximal run of
identifier characters; on a match the captured run is returned, otherwise
the input itself. -/

/-- The character class `[a-zA-Z0-9_-]` of the drive-id regex. -/
def isIdChar (c : Char) : Bool :=
  ('a' ≤ c && c ≤ 'z') || ('A' ≤ c && c ≤ 'Z') || ('0' ≤ c && c ≤ '9') ||
    c = '_' || c = '-'

/-- The literal part `/file/d/` of the drive-id regex. -/
def fileDLit : List Char := ['/', 'f', 'i', 'l', 'e', '/', 'd', '/']

/-- Maximal run of identifier characters at the front of the list (the
greedy `([a-zA-Z0-9_-]+)` capture, up to the non-emptiness check). -/
def takeIdRun : List Char → List Char
  | [] => []
  | c :: cs => if isIdChar c then c :: takeIdRun cs else []

/-- Attempt to match the regex `/file/d/([a-zA-Z0-9_-]+)` at the head of
the list; return the captured group on success. -/
def matchFileDAt (cs : List Char) : Option (List Char) :=
  if fileDLit.isPrefixOf cs then
    let tok := takeIdRun (cs.drop 8)
    if tok.isEmpty then none else some tok
  else none

/-- Model of `re.search` for the drive-id regex: try every start position from the
left, return the first capture. -/
def searchFileD : List Char → Option (List Char)
  | [] => none
  | c :: cs =>
    match matchFileDAt (c :: cs) with
    | some tok => some tok
    | none => searchFileD cs

/-- Function `extract_drive_id` (lines 10-16): return the regex capture when the
pattern occurs, the input unchanged otherwise. -/
def extract_drive_id (s : String) : String :=
  match searchFileD s.data with
  | some tok => String.mk tok
  | none => s

/-! ### Folder listing (src/gdrive_videoloader.py lines 19-47 and 78-110)

Both definitions of `extract_bulk_data_ids_from_folder` run
`re.findall(r'data-id\s*=\s*["\']([^"\']+)["\']', text)` and then a
filter-and-dedup loop.  The regex is modelled by an explicit scanner: the
literal `data-id`, optional whitespace, `=`, optional whitespace, a quote
(single or double), a non-empty maximal run of non-quote characters, and a
closing quote (single or double, independent of the opening one, as the
character classes of the pattern say).  `re.findall` takes leftmost
non-overlapping matches, continuing after the end of each match. -/

/-- Either quote character of the class `["\']`. -/
def isQuote (c : Char) : Bool := c = '"' || c = '\''

/-- The literal `data-id` of the folder regex. -/
def dataIdLit : List Char := ['d', 'a', 't', 'a', '-', 'i', 'd']

/-- Greedy `([^"\']+)` capture: split off the maximal run of non-quote
characters, returning it with the rest of the input. -/
def takeNonQuote : List Char → List Char × List Char
  | [] => ([], [])
  | c :: cs =>
    if isQuote c then ([], c :: cs)
    else
      let r := takeNonQuote cs
      (c :: r.1, r.2)

/-- Attempt to match `data-id\s*=\s*["\']([^"\']+)["\']` at the head of the
list; on success return the captured value and the input remaining after
the whole match. -/
def matchDataIdAt (cs : List Char) : Option (List Char × List Char) :=
  if dataIdLit.isPrefixOf cs then
    match (cs.drop 7).dropWhile isSpaceChar with
    | '=' :: cs2 =>
      match cs2.dropWhile isSpaceChar with
      | q1 :: cs4 =>
        if isQuote q1 then
          match takeNonQuote cs4 with
          | ([], _) => none
          | (_ :: _, []) => none
          | (v0 :: v, q2 :: rest2) =>
            if isQuote q2 then some (v0 :: v, rest2) else none
        else none
      | [] => none
    | _ => none
  else none

/-- Model of `re.findall` for the folder regex, driven by a fuel argument.  Every
recursive call strictly shrinks the working list (a successful match
consumes at least the seven characters of `data-id`), so fuel equal to the
length of the input, as `findDataIds` passes, never runs out. -/
def findDataIdsAux : Nat → List Char → List String
  | 0, _ => []
  | _ + 1, [] => []
  | fuel + 1, c :: cs =>
    match matchDataIdAt (c :: cs) with
    | some (v, rest) => String.mk v :: findDataIdsAux fuel rest
    | none => findDataIdsAux fuel cs

/-- All matches of the folder regex in the text, in order. -/
def findDataIds (text : String) : List String :=
  findDataIdsAux text.data.length text.data

/-- The filter-and-dedup loop of the second `extract_bulk_data_ids_from_folder`
(lines 92-100): skip values shorter than 5, append first occurrences,
remember seen values.  Python's `seen` set is modelled by a list queried
with membership. -/
def loopIds : List String → List String → List String → List String
  | [], data_ids, _ => data_ids
  | m :: ms, data_ids, seen =>
    if m.length < 5 then loopIds ms data_ids seen
    else if m ∈ seen then loopIds ms data_ids seen
    else loopIds ms (data_ids ++ [m]) (m :: seen)

/-- The filter-and-dedup loop of the first `extract_bulk_data_ids_from_folder`
(lines 32-40); textually the same loop, kept separate because the source
defines it twice. -/
def loopIdsV1 : List String → List String → List String → List String
  | [], data_ids, _ => data_ids
  | m :: ms, data_ids, seen =>
    if m.length < 5 then loopIdsV1 ms data_ids seen
    else if m ∈ seen then loopIdsV1 ms data_ids seen
    else loopIdsV1 ms (data_ids ++ [m]) (m :: seen)

/-- First definition of `extract_bulk_data_ids_from_folder` (lines 19-47),
shadowed later in the file.  The HTTP exchange is a parameter: `Except.error`
covers a transport failure or a non-2xx status raised by
`raise_for_status` (the `except` branch returns `[]`), `Except.ok text`
is a fetched body. -/
def extract_bulk_data_ids_from_folder_v1 (fetched : Except String String) :
    List String :=
  match fetched with
  | Except.error _ => []
  | Except.ok text => loopIdsV1 (findDataIds text) [] []

/-- Second definition of `extract_bulk_data_ids_from_folder` (lines 78-110),
the one visible to callers. -/
def extract_bulk_data_ids_from_folder (fetched : Except String String) :
    List String :=
  match fetched with
  | Except.error _ => []
  | Except.ok text => loopIds (findDataIds text) [] []

/-- Modelled from the spec: "collects values of length ≥ 5, deduplicates
while preserving first-seen order" — keep each value the first time it is
seen, drop later duplicates.  Comparison definition for the claims about
the folder listing. -/
def specDedup : List String → List String → List String
  | _, [] => []
  | seen, x :: xs =>
    if x ∈ seen then specDedup seen xs else x :: specDedup (x :: seen) xs

/-! ### Stream locator: get_video_url (src/gdrive_videoloader.py lines 112-129)

The body is split on `&`; the loop keeps the first truthy title (from a
token starting with `title=`, decoding the part after the last `=`) and,
in an `elif`, the first truthy video URL (from a token containing
`videoplayback`, decoding the whole token and taking the part after the
last `|`), breaking once both are truthy.  Python truthiness of the
`str | None` variables is: `None` and `""` are falsy. -/

/-- The literal `title=` tested with `str.startswith`. -/
def titleKey : List Char := ['t', 'i', 't', 'l', 'e', '=']

/-- The literal `videoplayback` tested with `in`. -/
def vpLit : List Char :=
  ['v', 'i', 'd', 'e', 'o', 'p', 'l', 'a', 'y', 'b', 'a', 'c', 'k']

/-- Python's substring operator `in`: the needle occurs at some position
of the haystack. -/
def hasSub (needle : List Char) : List Char → Bool
  | [] => needle.isEmpty
  | c :: cs => needle.isPrefixOf (c :: cs) || hasSub needle cs

/-- Python truthiness of an optional string value (`None` and the empty
string are falsy). -/
def truthyL : Option (List Char) → Bool
  | none => false
  | some l => !l.isEmpty

/-- The expression `unquote(content.split('=')[-1])` applied to a token. -/
def decodeTitle (tok : List Char) : List Char :=
  unquoteAux ((splitOnChar '=' tok).getLastD [])

/-- The expression `unquote(content).split("|")[-1]` applied to a token. -/
def decodeVideo (tok : List Char) : List Char :=
  (splitOnChar '|' (unquoteAux tok)).getLastD []

/-- The scanning loop of `get_video_url` (lines 118-124), carrying the
mutable `video` and `title` of the Python code. -/
def gvLoop : List (List Char) → Option (List Char) → Option (List Char) →
    Option (List Char) × Option (List Char)
  | [], video, title => (video, title)
  | content :: rest, video, title =>
    if titleKey.isPrefixOf content ∧ truthyL title = false then
      let title2 := some (decodeTitle content)
      if truthyL video ∧ truthyL title2 then (video, title2)
      else gvLoop rest video title2
    else if hasSub vpLit content ∧ truthyL video = false then
      let video2 := some (decodeVideo content)
      if truthyL video2 ∧ truthyL title then (video2, title)
      else gvLoop rest video2 title
    else if truthyL video ∧ truthyL title then (video, title)
    else gvLoop rest video title

/-- Function `get_video_url` (lines 112-129): returns the pair (video, title), each
possibly `None`. -/
def get_video_url (page_content : String) : Option String × Option String :=
  let r := gvLoop (splitOnChar '&' page_content.data) none none
  (r.1.map String.mk, r.2.map String.mk)

/-! ### Filename sanitization and choice: sanitize_filename
(src/gdrive_videoloader.py lines 53-59 and 61-76) -/

/-- One step of the replacement loop: Python `name.replace(ch, '_')` for a
single character. -/
def replaceChar (s : List Char) (ch : Char) : List Char :=
  s.map fun c => if c = ch then '_' else c

/-- The characters of the raw string `r'<>:"/\\|?*'` — note the raw string
spells the backslash twice, so the loop replaces it twice. -/
def invalidChars : List Char :=
  ['<', '>', ':', '"', '/', '\\', '\\', '|', '?', '*']

/-- Function `sanitize_filename` (lines 53-59): empty input is returned as is;
otherwise each invalid character is replaced by `_` and the result is
stripped. -/
def sanitize_filename (name : String) : String :=
  if name = "" then name
  else String.mk (pyStrip (invalidChars.foldl replaceChar name.data))

/-- Python truthiness of an `str | None` value at the `String` level. -/
def pyTruthyOpt : Option String → Bool
  | none => false
  | some s => !(s = "")

/-- The filename choice of `download_from_video_id` (line 72):
`output_file if output_file else sanitize_filename(title) or video_id`.
A `None` title passes through `sanitize_filename` unchanged in Python
(`if not name: return name`), hence is modelled by `Option.map`. -/
def chooseFilename (output_file title : Option String) (video_id : String) :
    String :=
  if pyTruthyOpt output_file then output_file.getD ""
  else
    let st := title.map sanitize_filename
    if pyTruthyOpt st then st.getD "" else video_id

/-- Modelled from the spec: "the decoded title with filesystem-invalid
characters (`<>:\x22/\\|?*`) replaced by underscore and surrounding
whitespace trimmed" — a single simultaneous replacement over the nine
listed characters, then a strip.  Comparison definition for the filename
claim. -/
def sanitizeSpec (name : String) : String :=
  String.mk (pyStrip (name.data.map fun c =>
    if c ∈ ['<', '>', ':', '"', '/', '\\', '|', '?', '*'] then '_' else c))

/-! ### Downloader: download_file (src/gdrive_videoloader.py lines 131-158)

The filesystem is explicit: `none` is an absent local file, `some bytes`
a present one (its size is the length).  The HTTP response is a record of
status, declared content length and the chunk sequence of
`iter_content`.  The function is total — the Python code raises nothing
on a bad status, it prints an error — and returns the request headers it
built, the file mode, whether the file was opened, the resulting file
state and whether the error branch was taken. -/

/-- A streaming HTTP response, as `download_file` consumes it. -/
structure Response where
  status : Nat
  contentLength : Nat
  chunks : List (List Nat)

/-- Everything observable about one `download_file` call. -/
structure DownloadOutcome where
  rangeHeader : Option String
  fileMode : String
  fileOpened : Bool
  fileAfter : Option (List Nat)
  errorReported : Bool
  totalSize : Nat

/-- Function `download_file` (lines 131-158).  Headers and mode are computed from
`os.path.exists` before the request; on status 200 or 206 the file is
opened (`wb` truncates, `ab` appends) and every truthy chunk is written;
on any other status only an error message is printed. -/
def download_file (fileBefore : Option (List Nat)) (resp : Response) :
    DownloadOutcome :=
  let downloaded_size := (fileBefore.getD []).length
  let range : Option String :=
    if fileBefore.isSome then
      some ("bytes=" ++ toString downloaded_size ++ "-")
    else none
  let file_mode := if fileBefore.isSome then "ab" else "wb"
  if resp.status = 200 ∨ resp.status = 206 then
    let initial : List Nat := if file_mode = "ab" then fileBefore.getD [] else []
    let written := (resp.chunks.filter fun c => !c.isEmpty).flatten
    { rangeHeader := range
      fileMode := file_mode
      fileOpened := true
      fileAfter := some (initial ++ written)
      errorReported := false
      totalSize := resp.contentLength + downloaded_size }
  else
    { rangeHeader := range
      fileMode := file_mode
      fileOpened := false
      fileAfter := fileBefore
      errorReported := true
      totalSize := 0 }

/-! ### Lemmas about the folder listing -/

theorem specDedup_mem {x : String} :
    ∀ (seen l : List String), x ∈ specDedup seen l → x ∈ l := by
  intro seen l
  induction l generalizing seen with
  | nil => simp [specDedup]
  | cons y ys ih =>
    intro hx
    simp only [specDedup] at hx
    by_cases hy : y ∈ seen
    · simp only [if_pos hy] at hx
      exact List.mem_cons_of_mem _ (ih seen hx)
    · simp only [if_neg hy, List.mem_cons] at hx
      rcases hx with h | h
      · exact h ▸ List.mem_cons_self _ _
      · exact List.mem_cons_of_mem _ (ih _ h)

theorem specDedup_not_mem_seen {x : String} :
    ∀ (seen l : List String), x ∈ specDedup seen l → x ∉ seen := by
  intro seen l
  induction l generalizing seen with
  | nil => simp [specDedup]
  | cons y ys ih =>
    intro hx
    simp only [specDedup] at hx
    by_cases hy : y ∈ seen
    · simp only [if_pos hy] at hx
      exact ih seen hx
    · simp only [if_neg hy, List.mem_cons] at hx
      rcases hx with h | h
      · exact h ▸ hy
      · intro hmem
        exact ih _ h (List.mem_cons_of_mem _ hmem)

theorem specDedup_nodup : ∀ (seen l : List String), (specDedup seen l).Nodup := by
  intro seen l
  induction l generalizing seen with
  | nil => simp [specDedup]
  | cons y ys ih =>
    simp only [specDedup]
    by_cases hy : y ∈ seen
    · simpa [if_pos hy] using ih seen
    · simp only [if_neg hy]
      refine List.nodup_cons.mpr ⟨?_, ih _⟩
      intro hmem
      exact specDedup_not_mem_seen _ _ hmem (List.mem_cons_self _ _)

theorem loopIds_eq_specDedup :
    ∀ (ms acc seen : List String),
      loopIds ms acc seen =
        acc ++ specDedup seen (ms.filter fun m => decide (5 ≤ m.length)) := by
  intro ms
  induction ms with
  | nil => intro acc seen; simp [loopIds, specDedup]
  | cons m tl ih =>
    intro acc seen
    by_cases hlen : m.length < 5
    · have hfilt : (decide (5 ≤ m.length)) = false := by
        simp only [decide_eq_false_iff_not]; omega
      simp only [loopIds, if_pos hlen, List.filter_cons, hfilt]
      exact ih acc seen
    · have hfilt : (decide (5 ≤ m.length)) = true := by
        simp only [decide_eq_true_eq]; omega
      by_cases hseen : m ∈ seen
      · simp only [loopIds, if_neg hlen, if_pos hseen, List.filter_cons, hfilt,
          if_pos rfl]
        rw [ih acc seen]
        simp [specDedup, if_pos hseen]
      · simp only [loopIds, if_neg hlen, if_neg hseen, List.filter_cons, hfilt,
          if_pos rfl]
        rw [ih (acc ++ [m]) (m :: seen)]
        simp [specDedup, if_neg hseen]

theorem loopIdsV1_eq_loopIds :
    ∀ (ms acc seen : List String), loopIdsV1 ms acc seen = loopIds ms acc seen := by
  intro ms
  induction ms with
  | nil => intro acc seen; rfl
  | cons m tl ih =>
    intro acc seen
    simp only [loopIdsV1, loopIds]
    by_cases hlen : m.length < 5
    · simp only [if_pos hlen]; exact ih acc seen
    · by_cases hseen : m ∈ seen
      · simp only [if_neg hlen, if_pos hseen]; exact ih acc seen
      · simp only [if_neg hlen, if_neg hseen]; exact ih _ _

theorem extract_eq_specDedup (text : String) :
    extract_bulk_data_ids_from_folder (Except.ok text) =
      specDedup [] ((findDataIds text).filter fun m => decide (5 ≤ m.length)) := by
  show loopIds (findDataIds text) [] [] = _
  rw [loopIds_eq_specDedup]
  rfl

theorem extract_all_long (text : String) :
    (extract_bulk_data_ids_from_folder (Except.ok text)).all
      (fun m => decide (5 ≤ m.length)) = true := by
  rw [extract_eq_specDedup, List.all_eq_true]
  intro m hm
  have := specDedup_mem _ _ hm
  exact (List.mem_filter.mp this).2

/-- C6: For every successfully fetched folder body, the list returned by
the folder lister equals the sequence of regex-matched `data-id` attribute
values with values shorter than 5 discarded and later duplicates of an
already-seen value discarded (first-seen order); consequently the list has
no duplicates and every element has length at least 5. -/
theorem C6_folder_listing (text : String) :
    extract_bulk_data_ids_from_folder (Except.ok text) =
      specDedup [] ((findDataIds text).filter fun m => decide (5 ≤ m.length))
    ∧ (extract_bulk_data_ids_from_folder (Except.ok text)).Nodup
    ∧ (extract_bulk_data_ids_from_folder (Except.ok text)).all
        (fun m => decide (5 ≤ m.length)) = true := by
  refine ⟨extract_eq_specDedup text, ?_, extract_all_long text⟩
  rw [extract_eq_specDedup]
  exact specDedup_nodup _ _

/-- C9: the two definitions of `extract_bulk_data_ids_from_folder` (the
shadowed first one and the visible second one) agree on every fetch
result, so the shadowing does not change program behaviour. -/
theorem C9_shadowed_defs_agree (fetched : Except String String) :
    extract_bulk_data_ids_from_folder_v1 fetched =
      extract_bulk_data_ids_from_folder fetched := by
  cases fetched with
  | error e => rfl
  | ok text =>
    show loopIdsV1 (findDataIds text) [] [] = loopIds (findDataIds text) [] []
    exact loopIdsV1_eq_loopIds _ _ _

/-- C3 counterexample: a body with repeated `data-id="x"` and one
`data-id="ab"` produces the empty listing — `x` appears zero times, not
exactly once as the claim states. -/
theorem C3_counterexample :
    extract_bulk_data_ids_from_folder
        (Except.ok "data-id=\"x\"data-id=\"x\"data-id=\"ab\"") = []
    ∧ (extract_bulk_data_ids_from_folder
        (Except.ok "data-id=\"x\"data-id=\"x\"data-id=\"ab\"")).count "x" ≠ 1 := by
  constructor
  · rfl
  · decide

/-- C3 amended: for every folder-page body, the folder listing omits both
`x` and `ab` (every emitted value has length at least 5, and these have
lengths 1 and 2). -/
theorem C3_amended_short_ids_omitted (body : String) :
    (extract_bulk_data_ids_from_folder (Except.ok body)).count "x" = 0
    ∧ (extract_bulk_data_ids_from_folder (Except.ok body)).count "ab" = 0 := by
  have hall := extract_all_long body
  rw [List.all_eq_true] at hall
  constructor
  · rw [List.count_eq_zero]
    intro hmem
    have := hall _ hmem
    exact absurd this (by decide)
  · rw [List.count_eq_zero]
    intro hmem
    have := hall _ hmem
    exact absurd this (by decide)

/-! ### Lemmas about the stream locator -/

theorem gvLoop_title_persist (t : List Char) (ht : t.isEmpty = false) :
    ∀ (l : List (List Char)) (video : Option (List Char)),
      (gvLoop l video (some t)).2 = some t := by
  intro l
  induction l with
  | nil => intro video; rfl
  | cons content rest ih =>
    intro video
    have htt : truthyL (some t) = true := by simp [truthyL, ht]
    simp only [gvLoop]
    rw [if_neg (by simp [htt])]
    by_cases h2 : hasSub vpLit content ∧ truthyL video = false
    · rw [if_pos h2]
      by_cases h3 : truthyL (some (decodeVideo content)) ∧ truthyL (some t)
      · rw [if_pos h3]
      · rw [if_neg h3]; exact ih _
    · rw [if_neg h2]
      by_cases h3 : truthyL video ∧ truthyL (some t)
      · rw [if_pos h3]
      · rw [if_neg h3]; exact ih _

theorem gvLoop_video_persist (v : List Char) (hv : v.isEmpty = false) :
    ∀ (l : List (List Char)) (title : Option (List Char)),
      (gvLoop l (some v) title).1 = some v := by
  intro l
  induction l with
  | nil => intro title; rfl
  | cons content rest ih =>
    intro title
    have hvt : truthyL (some v) = true := by simp [truthyL, hv]
    simp only [gvLoop]
    by_cases h1 : titleKey.isPrefixOf content ∧ truthyL title = false
    · rw [if_pos h1]
      by_cases h3 : truthyL (some v) ∧ truthyL (some (decodeTitle content))
      · rw [if_pos h3]
      · rw [if_neg h3]; exact ih _
    · rw [if_neg h1]
      rw [if_neg (by simp [hvt])]
      by_cases h3 : truthyL (some v) ∧ truthyL title
      · rw [if_pos h3]
      · rw [if_neg h3]; exact ih _

theorem gvLoop_title_found (tok : List Char)
    (htok : titleKey.isPrefixOf tok = true)
    (hne : (decodeTitle tok).isEmpty = false) :
    ∀ (pre post : List (List Char)) (video : Option (List Char)),
      (∀ p ∈ pre, titleKey.isPrefixOf p = false) →
      (gvLoop (pre ++ tok :: post) video none).2 = some (decodeTitle tok) := by
  intro pre
  induction pre with
  | nil =>
    intro post video _
    simp only [List.nil_append, gvLoop]
    rw [if_pos (by simp [htok, truthyL])]
    by_cases h3 : truthyL video ∧ truthyL (some (decodeTitle tok))
    · rw [if_pos h3]
    · rw [if_neg h3]
      exact gvLoop_title_persist _ hne _ _
  | cons p ps ih =>
    intro post video hpre
    have hp : titleKey.isPrefixOf p = false := hpre p (List.mem_cons_self _ _)
    have hps : ∀ q ∈ ps, titleKey.isPrefixOf q = false := fun q hq =>
      hpre q (List.mem_cons_of_mem _ hq)
    simp only [List.cons_append, gvLoop]
    rw [if_neg (by simp [hp])]
    by_cases h2 : hasSub vpLit p ∧ truthyL video = false
    · rw [if_pos h2]
      rw [if_neg (by simp [truthyL])]
      exact ih post _ hps
    · rw [if_neg h2]
      rw [if_neg (by simp [truthyL])]
      exact ih post _ hps

theorem gvLoop_video_found (tok : List Char)
    (hpref : titleKey.isPrefixOf tok = false)
    (hvp : hasSub vpLit tok = true)
    (hne : (decodeVideo tok).isEmpty = false) :
    ∀ (pre post : List (List Char)) (title : Option (List Char)),
      (∀ p ∈ pre, hasSub vpLit p = false) →
      (gvLoop (pre ++ tok :: post) none title).1 = some (decodeVideo tok) := by
  intro pre
  induction pre with
  | nil =>
    intro post title _
    simp only [List.nil_append, gvLoop]
    rw [if_neg (by simp [hpref])]
    rw [if_pos (by simp [hvp, truthyL])]
    by_cases h3 : truthyL (some (decodeVideo tok)) ∧ truthyL title
    · rw [if_pos h3]
    · rw [if_neg h3]
      exact gvLoop_video_persist _ hne _ _
  | cons p ps ih =>
    intro post title hpre
    have hp : hasSub vpLit p = false := hpre p (List.mem_cons_self _ _)
    have hps : ∀ q ∈ ps, hasSub vpLit q = false := fun q hq =>
      hpre q (List.mem_cons_of_mem _ hq)
    simp only [List.cons_append, gvLoop]
    by_cases h1 : titleKey.isPrefixOf p ∧ truthyL title = false
    · rw [if_pos h1]
      rw [if_neg (by simp [truthyL])]
      exact ih post _ hps
    · rw [if_neg h1]
      rw [if_neg (by simp [hp])]
      rw [if_neg (by simp [truthyL])]
      exact ih post _ hps

/-- C1 counterexample: on the info text `title=a=b` the code returns the
title `b` (it decodes only the part after the last `=`), not `a=b` as the
claim states. -/
theorem C1_counterexample :
    (get_video_url "title=a=b").2 = some "b"
    ∧ (get_video_url "title=a=b").2 ≠ some "a=b" := by
  exact ⟨rfl, by decide⟩

/-- C1 amended: for every info-response text, when the token list split on
`&` has a first token starting with `title=` and the percent-decoding of
the part of that token after its *last* `=` is non-empty, the returned
title is exactly that decoding (so `title=a=b` yields `b`); only that
first token is used. -/
theorem C1_amended_title (s : String) (pre : List (List Char))
    (tok : List Char) (post : List (List Char))
    (hsplit : splitOnChar '&' s.data = pre ++ tok :: post)
    (hpre : ∀ p ∈ pre, titleKey.isPrefixOf p = false)
    (htok : titleKey.isPrefixOf tok = true)
    (hne : (decodeTitle tok).isEmpty = false) :
    (get_video_url s).2 = some (String.mk (decodeTitle tok)) := by
  unfold get_video_url
  rw [hsplit]
  dsimp only
  rw [gvLoop_title_found tok htok hne pre post none hpre]
  rfl

theorem C1_witness :
    (get_video_url "a=1&title=My%20Video&x").2 = some "My Video" := by
  have h := C1_amended_title "a=1&title=My%20Video&x" ["a=1".data]
    "title=My%20Video".data ["x".data] (by decide) (by decide) (by decide)
    (by decide)
  rw [h]
  rfl

/-- C4 counterexample: on the info text `title=videoplayback` the single
token contains `videoplayback`, yet the code returns no URL — the `elif`
never sees a token already consumed by the title rule — contradicting the
claim that the URL comes from the first token containing `videoplayback`. -/
theorem C4_counterexample :
    (get_video_url "title=videoplayback").1 = none
    ∧ hasSub vpLit "title=videoplayback".data = true
    ∧ (get_video_url "title=videoplayback").1 ≠
        some (String.mk (decodeVideo "title=videoplayback".data)) := by
  exact ⟨rfl, by decide, by decide⟩

/-- C4 amended: for every info-response text, if the first ampersand-token
containing `videoplayback` does not start with `title=` and the
percent-decoding of the whole token followed by taking the part after the
last `|` is non-empty, the returned URL is exactly that part; on the
concrete input of the claim the result is the title `My Video` and the URL
`https://host/videoplayback?id=2`. -/
theorem C4_amended_video :
    (∀ (s : String) (pre : List (List Char)) (tok : List Char)
        (post : List (List Char)),
      splitOnChar '&' s.data = pre ++ tok :: post →
      (∀ p ∈ pre, hasSub vpLit p = false) →
      titleKey.isPrefixOf tok = false →
      hasSub vpLit tok = true →
      (decodeVideo tok).isEmpty = false →
      (get_video_url s).1 = some (String.mk (decodeVideo tok)))
    ∧ get_video_url
        "a=1&title=My%20Video&foo=bar&xyz|https://host/videoplayback?id=2" =
        (some "https://host/videoplayback?id=2", some "My Video") := by
  constructor
  · intro s pre tok post hsplit hpre hpref hvp hne
    unfold get_video_url
    rw [hsplit]
    dsimp only
    rw [gvLoop_video_found tok hpref hvp hne pre post none hpre]
    rfl
  · rfl

theorem C4_witness :
    (get_video_url
      "a=1&title=My%20Video&foo=bar&xyz|https://host/videoplayback?id=2").1 =
      some "https://host/videoplayback?id=2" := by
  have h := C4_amended_video.1
    "a=1&title=My%20Video&foo=bar&xyz|https://host/videoplayback?id=2"
    ["a=1".data, "title=My%20Video".data, "foo=bar".data]
    "xyz|https://host/videoplayback?id=2".data [] (by decide) (by decide)
    (by decide) (by decide) (by decide)
  rw [h]
  rfl

/-! ### Lemmas about the identifier resolver -/

theorem matchFileDAt_nil : matchFileDAt [] = none := by decide

theorem isPrefixOf_append (l x : List Char) : l.isPrefixOf (l ++ x) = true := by
  induction l with
  | nil => cases x <;> simp [List.isPrefixOf]
  | cons c cs ih => simp [List.isPrefixOf, ih]

theorem takeIdRun_all : ∀ l : List Char, (takeIdRun l).all isIdChar = true := by
  intro l
  induction l with
  | nil => rfl
  | cons c cs ih =>
    by_cases hc : isIdChar c = true
    · simp [takeIdRun, hc, ih]
    · simp only [Bool.not_eq_true] at hc
      simp [takeIdRun, hc]

/-- The run of identifier characters does not continue into this list: it
is empty or starts with a non-identifier character.  (The maximality side
condition of the greedy `+`, stated executably.) -/
def notIdHead : List Char → Bool
  | [] => true
  | r :: _ => !isIdChar r

theorem takeIdRun_exact (tok rest : List Char)
    (htok : tok.all isIdChar = true)
    (hrest : notIdHead rest = true) :
    takeIdRun (tok ++ rest) = tok := by
  induction tok with
  | nil =>
    cases rest with
    | nil => rfl
    | cons r rs =>
      simp only [notIdHead, Bool.not_eq_true'] at hrest
      simp [takeIdRun, hrest]
  | cons c cs ih =>
    simp only [List.all_cons, Bool.and_eq_true] at htok
    simp [takeIdRun, htok.1, ih htok.2]

theorem searchFileD_of_match :
    ∀ (k : Nat) (l : List Char) (tok : List Char),
      (∀ n < k, matchFileDAt (l.drop n) = none) →
      matchFileDAt (l.drop k) = some tok →
      searchFileD l = some tok := by
  intro k
  induction k with
  | zero =>
    intro l tok _ hmatch
    cases l with
    | nil =>
      rw [List.drop_nil, matchFileDAt_nil] at hmatch
      exact absurd hmatch (by simp)
    | cons c cs =>
      simp only [List.drop_zero] at hmatch
      simp [searchFileD, hmatch]
  | succ k ih =>
    intro l tok hnone hmatch
    cases l with
    | nil =>
      rw [List.drop_nil, matchFileDAt_nil] at hmatch
      exact absurd hmatch (by simp)
    | cons c cs =>
      have h0 : matchFileDAt (c :: cs) = none := by
        have := hnone 0 (Nat.succ_pos k)
        simpa using this
      simp only [searchFileD, h0]
      exact ih cs tok
        (fun n hn => by simpa using hnone (n + 1) (Nat.succ_lt_succ hn))
        (by simpa using hmatch)

theorem searchFileD_none :
    ∀ l : List Char,
      (∀ n < l.length, matchFileDAt (l.drop n) = none) →
      searchFileD l = none := by
  intro l
  induction l with
  | nil => intro _; rfl
  | cons c cs ih =>
    intro hnone
    have h0 : matchFileDAt (c :: cs) = none := by
      have := hnone 0 (Nat.succ_pos _)
      simpa using this
    simp only [searchFileD, h0]
    exact ih fun n hn => by
      simpa using hnone (n + 1) (Nat.succ_lt_succ hn)

theorem matchFileDAt_all_idChar {cs tok : List Char}
    (h : matchFileDAt cs = some tok) : tok.all isIdChar = true := by
  unfold matchFileDAt at h
  split at h
  · dsimp only at h
    split at h
    · exact absurd h (by simp)
    · have htk : takeIdRun (cs.drop 8) = tok := by injection h
      rw [← htk]
      exact takeIdRun_all _
  · exact absurd h (by simp)

theorem searchFileD_all_idChar :
    ∀ {l tok : List Char}, searchFileD l = some tok → tok.all isIdChar = true := by
  intro l
  induction l with
  | nil =>
    intro tok h
    simp only [searchFileD] at h
    exact Option.noConfusion h
  | cons c cs ih =>
    intro tok h
    simp only [searchFileD] at h
    cases hm : matchFileDAt (c :: cs) with
    | none => rw [hm] at h; exact ih h
    | some v =>
      rw [hm] at h
      have hv : v = tok := by injection h
      rw [← hv]
      exact matchFileDAt_all_idChar hm

theorem searchFileD_idChars_none :
    ∀ l : List Char, l.all isIdChar = true → searchFileD l = none := by
  intro l
  induction l with
  | nil => intro _; rfl
  | cons c cs ih =>
    intro hall
    simp only [List.all_cons, Bool.and_eq_true] at hall
    have hc : c ≠ '/' := by
      intro hc
      rw [hc] at hall
      exact absurd hall.1 (by decide)
    have hp : fileDLit.isPrefixOf (c :: cs) = false := by
      simp only [fileDLit, List.isPrefixOf, Bool.and_eq_false_iff]
      left
      simpa [beq_iff_eq] using fun h => hc h.symm
    have hm : matchFileDAt (c :: cs) = none := by
      unfold matchFileDAt
      rw [if_neg (by simp [hp])]
    simp only [searchFileD, hm]
    exact ih hall.2

/-- C5: for every input whose character list decomposes as
`pre ++ "/file/d/" ++ tok ++ rest` with `tok` a non-empty run of
identifier characters, maximal (`rest` does not continue the run) and
leftmost (no earlier position matches the pattern), `extract_drive_id`
returns exactly `tok`; and for every input in which no position matches
the pattern, `extract_drive_id` returns the input unchanged. -/
theorem C5_extract_drive_id (s : String) :
    (∀ (pre tok rest : List Char),
      s.data = pre ++ (fileDLit ++ (tok ++ rest)) →
      tok ≠ [] →
      tok.all isIdChar = true →
      notIdHead rest = true →
      (∀ n < pre.length, matchFileDAt (s.data.drop n) = none) →
      extract_drive_id s = String.mk tok)
    ∧ ((∀ n < s.data.length, matchFileDAt (s.data.drop n) = none) →
      extract_drive_id s = s) := by
  constructor
  · intro pre tok rest hdecomp hne hall hmax hleft
    have hdrop : s.data.drop pre.length = fileDLit ++ (tok ++ rest) := by
      rw [hdecomp, List.drop_left]
    have hmatch : matchFileDAt (s.data.drop pre.length) = some tok := by
      rw [hdrop]
      unfold matchFileDAt
      rw [if_pos (isPrefixOf_append _ _)]
      have h8 : (fileDLit ++ (tok ++ rest)).drop 8 = tok ++ rest := by
        rw [show (8 : Nat) = fileDLit.length from rfl, List.drop_left]
      rw [h8, takeIdRun_exact tok rest hall hmax]
      rw [if_neg (by simpa [List.isEmpty_iff] using hne)]
    have hsearch : searchFileD s.data = some tok :=
      searchFileD_of_match pre.length s.data tok hleft hmatch
    unfold extract_drive_id
    rw [hsearch]
  · intro hnone
    have hsearch : searchFileD s.data = none := searchFileD_none s.data hnone
    unfold extract_drive_id
    rw [hsearch]

theorem C5_witness :
    extract_drive_id "https://drive.google.com/file/d/abc_123-XY/view" =
      "abc_123-XY"
    ∧ extract_drive_id "plain-id_01" = "plain-id_01" := by
  constructor
  · exact (C5_extract_drive_id _).1 "https://drive.google.com".data
      "abc_123-XY".data "/view".data (by decide) (by decide) (by decide)
      (by decide) (by decide)
  · exact (C5_extract_drive_id _).2 (by decide)

/-- C10: `extract_drive_id` is idempotent — an extracted token consists
only of identifier characters, so it can never itself contain a
`/file/d/` segment, and an unchanged input yields the same search result
again. -/
theorem C10_extract_drive_id_idempotent (s : String) :
    extract_drive_id (extract_drive_id s) = extract_drive_id s := by
  cases h : searchFileD s.data with
  | none =>
    have h1 : extract_drive_id s = s := by
      unfold extract_drive_id; rw [h]
    rw [h1]
    exact h1
  | some tok =>
    have h1 : extract_drive_id s = String.mk tok := by
      unfold extract_drive_id; rw [h]
    rw [h1]
    have h2 : searchFileD (String.mk tok).data = none :=
      searchFileD_idChars_none _ (searchFileD_all_idChar h)
    unfold extract_drive_id
    rw [h2]

/-! ### Lemmas about filename sanitization and choice -/

/-- Pointwise form of the spec's sanitization: one character, replaced if
it is one of the nine listed invalid characters. -/
def charSan (c : Char) : Char :=
  if c ∈ ['<', '>', ':', '"', '/', '\\', '|', '?', '*'] then '_' else c

theorem foldl_replaceChar_cons (cs : List Char) (x : Char) (xs : List Char) :
    List.foldl replaceChar (x :: xs) cs =
      List.foldl (fun c ch => if c = ch then '_' else c) x cs ::
        List.foldl replaceChar xs cs := by
  induction cs generalizing x xs with
  | nil => rfl
  | cons ch cht ih => simp [List.foldl, replaceChar, ih]

theorem foldl_step_eq_charSan (x : Char) :
    List.foldl (fun c ch => if c = ch then '_' else c) x invalidChars =
      charSan x := by
  by_cases hx : x ∈ ['<', '>', ':', '"', '/', '\\', '|', '?', '*']
  · fin_cases hx <;> rfl
  · simp only [List.mem_cons, List.mem_singleton, not_or] at hx
    obtain ⟨h1, h2, h3, h4, h5, h6, h7, h8, h9⟩ := hx
    simp [invalidChars, List.foldl, charSan, h1, h2, h3, h4, h5, h6, h7, h8, h9]

theorem foldl_replaceChar_eq_map (l : List Char) :
    List.foldl replaceChar l invalidChars = l.map charSan := by
  induction l with
  | nil => rfl
  | cons x xs ih =>
    rw [foldl_replaceChar_cons, ih, foldl_step_eq_charSan, List.map_cons]

theorem sanitize_filename_eq_spec (s : String) :
    sanitize_filename s = sanitizeSpec s := by
  by_cases hs : s = ""
  · subst hs; rfl
  · unfold sanitize_filename sanitizeSpec
    rw [if_neg hs, foldl_replaceChar_eq_map]
    rfl

/-- C7 counterexample: with the explicit override `""` (given, but empty)
and title `t`, the code ignores the override — Python truthiness treats the
empty string like `None` — and returns `t`, not the given override. -/
theorem C7_counterexample :
    chooseFilename (some "") (some "t") "vid" = "t" ∧ "t" ≠ "" := by
  exact ⟨rfl, by decide⟩

/-- C7 amended: the output filename is the caller-provided override when a
*non-empty* override is given; otherwise it is the decoded title with each
of the nine invalid characters replaced by underscore and surrounding
whitespace stripped, falling back to the raw identifier when the title is
absent or sanitizes to the empty string; `My:Video/Name?` sanitizes to
`My_Video_Name_`. -/
theorem C7_amended_filename (o t : Option String) (vid : String) :
    (pyTruthyOpt o = true → chooseFilename o t vid = o.getD "")
    ∧ (pyTruthyOpt o = false →
        chooseFilename o t vid =
          (match t with
           | none => vid
           | some ts => if sanitizeSpec ts = "" then vid else sanitizeSpec ts))
    ∧ sanitize_filename "My:Video/Name?" = "My_Video_Name_" := by
  refine ⟨?_, ?_, by decide⟩
  · intro h
    unfold chooseFilename
    rw [if_pos h]
  · intro h
    unfold chooseFilename
    rw [if_neg (by simp [h])]
    cases t with
    | none => rfl
    | some ts =>
      dsimp only [Option.map]
      by_cases hts : sanitizeSpec ts = ""
      · rw [if_neg (by simp [pyTruthyOpt, sanitize_filename_eq_spec, hts])]
        simp [hts]
      · rw [if_pos (by simp [pyTruthyOpt, sanitize_filename_eq_spec, hts])]
        simp [sanitize_filename_eq_spec, hts]

theorem C7_witness :
    chooseFilename (some "out.mp4") (some "My:Video/Name?") "vid" = "out.mp4"
    ∧ chooseFilename none (some "My:Video/Name?") "vid" = "My_Video_Name_" := by
  constructor
  · exact (C7_amended_filename (some "out.mp4") (some "My:Video/Name?") "vid").1
      rfl
  · have h := (C7_amended_filename none (some "My:Video/Name?") "vid").2.1 rfl
    rw [h]
    decide

/-! ### Lemmas about the downloader -/

theorem download_file_rangeHeader (fb : Option (List Nat)) (resp : Response) :
    (download_file fb resp).rangeHeader =
      (if fb.isSome then some ("bytes=" ++ toString (fb.getD []).length ++ "-")
       else none) := by
  unfold download_file
  dsimp only
  split <;> rfl

theorem download_file_fileMode (fb : Option (List Nat)) (resp : Response) :
    (download_file fb resp).fileMode = (if fb.isSome then "ab" else "wb") := by
  unfold download_file
  dsimp only
  split <;> rfl

/-- C2 counterexample: for an existing local file of size 0 the code sends
the range header `bytes=0-` and opens the file for append, while the claim
demands no range header and a fresh write in that case. -/
theorem C2_counterexample :
    (download_file (some []) (Response.mk 200 5 [[1], [2]])).rangeHeader =
      some "bytes=0-"
    ∧ (download_file (some []) (Response.mk 200 5 [[1], [2]])).fileMode = "ab"
    ∧ ¬((download_file (some []) (Response.mk 200 5 [[1], [2]])).rangeHeader = none
        ∧ (download_file (some []) (Response.mk 200 5 [[1], [2]])).fileMode
            = "wb") := by
  refine ⟨by decide, by decide, by decide⟩

/-- C2 amended: the request carries a byte-range header starting at the
existing local size and the file is opened for append if and only if the
local file exists (whatever its size, 0 included); when the file is
absent, no range header is sent and the file is opened for fresh write. -/
theorem C2_amended_range_resume (fb : Option (List Nat)) (resp : Response) :
    (((download_file fb resp).rangeHeader =
        some ("bytes=" ++ toString (fb.getD []).length ++ "-")
      ∧ (download_file fb resp).fileMode = "ab") ↔ fb.isSome = true)
    ∧ (fb = none →
        (download_file fb resp).rangeHeader = none
        ∧ (download_file fb resp).fileMode = "wb") := by
  constructor
  · rw [download_file_rangeHeader, download_file_fileMode]
    cases fb with
    | none => simp
    | some c => simp
  · intro h
    subst h
    rw [download_file_rangeHeader, download_file_fileMode]
    exact ⟨rfl, rfl⟩

theorem C2_witness :
    (download_file none (Response.mk 200 5 [[1]])).rangeHeader = none
    ∧ (download_file (some [9]) (Response.mk 206 5 [[1]])).fileMode = "ab" := by
  constructor
  · exact ((C2_amended_range_resume none (Response.mk 200 5 [[1]])).2 rfl).1
  · exact ((C2_amended_range_resume (some [9])
      (Response.mk 206 5 [[1]])).1.mpr rfl).2

/-- C8: for every `download_file` call whose response status is neither
200 nor 206, the error branch is taken (a message is reported, nothing is
raised), the file is never opened, and the local file state after the call
is exactly the state before it. -/
theorem C8_bad_status (fb : Option (List Nat)) (resp : Response)
    (h200 : resp.status ≠ 200) (h206 : resp.status ≠ 206) :
    (download_file fb resp).errorReported = true
    ∧ (download_file fb resp).fileOpened = false
    ∧ (download_file fb resp).fileAfter = fb := by
  unfold download_file
  dsimp only
  rw [if_neg (by simp [h200, h206])]
  exact ⟨rfl, rfl, rfl⟩

theorem C8_witness :
    (download_file (some [1, 2]) (Response.mk 404 7 [[3]])).errorReported = true
    ∧ (download_file (some [1, 2]) (Response.mk 404 7 [[3]])).fileOpened = false
    ∧ (download_file (some [1, 2]) (Response.mk 404 7 [[3]])).fileAfter =
        some [1, 2] :=
  C8_bad_status (some [1, 2]) (Response.mk 404 7 [[3]]) (by decide) (by decide)

end GdriveVideoloader
